import Mathlib

/- Verification of the quiz application's core logic: answer-letter
   normalization, question-record building, document loading, session
   navigation and progress, scoring/report generation, and the tolerant
   JSON reader's text preprocessing.  The Python GUI layer (tkinter) is
   out of scope; the state the GUI mutates (questions, user_answers,
   current_index, metadata) is modelled explicitly. -/

/-- JSON-like values as produced by Python's json.loads.  Objects are
association lists with distinct keys (json.loads keeps the last binding
for a duplicated key; the strict parser below inserts with replacement).
Numbers keep their source token so that str() on a loaded value can be
rendered faithfully for integers. -/
inductive JVal where
  | null : JVal
  | bool : Bool → JVal
  | num : String → JVal
  | str : String → JVal
  | arr : List JVal → JVal
  | obj : List (String × JVal) → JVal

/-- Whitespace test used by Python's str.strip and by the regex class
\s, restricted to the ASCII whitespace characters (the only ones the
quiz documents contain). -/
def isPySpace (c : Char) : Bool :=
  c == ' ' || c == '\t' || c == '\n' || c == '\r' || c == '\x0b' || c == '\x0c'

/-- Python str.strip on a character list: drop whitespace from both ends. -/
def pyStripL (l : List Char) : List Char :=
  ((l.dropWhile isPySpace).reverse.dropWhile isPySpace).reverse

/-- Python s.strip() on strings. -/
def pyStrip (s : String) : String := String.mk (pyStripL s.data)

/-- LETTER_CHOICES = ["A", "B", "C", "D"] from the source. -/
def LETTER_CHOICES : List String := ["A", "B", "C", "D"]

/-- One character of the source's test ch.upper() in LETTER_CHOICES.
For membership in A-D, Python's str.upper on a single character agrees
with ASCII Char.toUpper (no other code point uppercases to A, B, C or D). -/
def isChoiceChar (c : Char) : Bool := LETTER_CHOICES.contains (String.mk [c.toUpper])

/-- extract_correct_letter from quiz_app.py (identical in all four files):
returns "" for non-string input, else strips the string and returns the
first character whose uppercase form is one of A/B/C/D (uppercased),
or "" when there is none. -/
def extract_correct_letter (answer_field : JVal) : String :=
  match answer_field with
  | .str s =>
      match (pyStripL s.data).find? isChoiceChar with
      | some c => String.mk [c.toUpper]
      | none => ""
  | _ => ""

/-- Canonical question record built by _parse_questions_list:
\x7bquestion, answer_letter, options, explanation\x7d.  The explanation
field stores the raw value of the "explanation" key (the source does not
convert it), defaulting to the empty string. -/
structure QuestionRecord where
  question : String
  answer_letter : String
  options : Option (List String)
  explanation : JVal

/-- Python dict lookup d.get(k) on an association list with distinct keys. -/
def objGet (fields : List (String × JVal)) (k : String) : Option JVal :=
  (fields.find? (fun p => p.1 == k)).map (fun p => p.2)

mutual
/-- Python repr of a loaded JSON value (string escaping inside repr is
omitted; no claim depends on the rendering of containers). -/
def pyRepr : JVal → String
  | .null => "None"
  | .bool b => if b then "True" else "False"
  | .num raw => raw
  | .str s => String.mk ['\x27'] ++ s ++ String.mk ['\x27']
  | .arr xs => "[" ++ pyReprList xs ++ "]"
  | .obj kvs => "\x7b" ++ pyReprObj kvs ++ "\x7d"

/-- Comma-separated repr of the elements of a loaded JSON array. -/
def pyReprList : List JVal → String
  | [] => ""
  | [x] => pyRepr x
  | x :: y :: xs => pyRepr x ++ ", " ++ pyReprList (y :: xs)

/-- Comma-separated repr of the key/value pairs of a loaded JSON object. -/
def pyReprObj : List (String × JVal) → String
  | [] => ""
  | [(k, v)] => String.mk ['\x27'] ++ k ++ String.mk ['\x27'] ++ ": " ++ pyRepr v
  | (k, v) :: y :: xs =>
      String.mk ['\x27'] ++ k ++ String.mk ['\x27'] ++ ": " ++ pyRepr v ++ ", " ++
        pyReprObj (y :: xs)
end

/-- Python str() of a loaded JSON value: identity on strings, None/True/
False for the literals, the source token for numbers, repr-style
rendering for containers. -/
def pyStr : JVal → String
  | .str s => s
  | v => pyRepr v

/-- Python s.startswith(p) over character lists (second argument is the
candidate leading segment). -/
def startsWithL : List Char → List Char → Bool
  | _, [] => true
  | [], _ :: _ => false
  | c :: cs, p :: ps => c == p && startsWithL cs ps

/-- Python s.upper() character-wise (ASCII; adequate for label tests). -/
def pyUpperL (l : List Char) : List Char := l.map Char.toUpper

/-- LETTER_CHOICES[i] (as a string). -/
def letterAt (i : Nat) : String := LETTER_CHOICES.getD i ""

/-- One iteration of the options-normalisation loop in
_parse_questions_list: t = str(opt).strip(); keep t if t.upper()
starts with "Letter_i)", else prepend "Letter_i) ". -/
def normOpt (i : Nat) (opt : JVal) : String :=
  let t := pyStrip (pyStr opt)
  if startsWithL (pyUpperL t.data) (letterAt i ++ ")").data then t
  else letterAt i ++ ") " ++ t

/-- The options normalisation of _parse_questions_list: first four
entries, each trimmed and labelled. -/
def normalizeOptions (opts : List JVal) : List String :=
  (opts.take 4).enum.map (fun p => normOpt p.1 p.2)

/-- One iteration of the _parse_questions_list loop (quiz_app.py
lines 179-204): skip non-dict items, skip items missing "question" or
"answer", otherwise build the record. -/
def buildQuestion (item : JVal) : Option QuestionRecord :=
  match item with
  | .obj fields =>
      if (objGet fields "question").isSome && (objGet fields "answer").isSome then
        some
          { question := pyStrip (pyStr ((objGet fields "question").getD .null))
            answer_letter := extract_correct_letter ((objGet fields "answer").getD .null)
            options :=
              match objGet fields "options" with
              | some (.arr opts) =>
                  if 4 ≤ opts.length then some (normalizeOptions opts) else none
              | _ => none
            explanation := (objGet fields "explanation").getD (.str "") }
      else none
  | _ => none

/-- QuizApp._parse_questions_list: the accumulation loop over items. -/
def parse_questions_list : List JVal → List QuestionRecord
  | [] => []
  | item :: rest =>
      match buildQuestion item with
      | some r => r :: parse_questions_list rest
      | none => parse_questions_list rest

/-- The application state touched by loading, navigation and scoring
(self.questions, self.user_answers, self.current_index, self.metadata).
user_answers models the Python dict index -> letter as an association
list in insertion order. -/
structure AppState where
  questions : List QuestionRecord
  user_answers : List (Nat × String)
  current_index : Nat
  metadata : List (String × JVal)

/-- Python self.user_answers.get(i). -/
def dictGet (m : List (Nat × String)) (k : Nat) : Option String :=
  (m.find? (fun p => p.1 == k)).map (fun p => p.2)

/-- Python self.user_answers[k] = v on the association-list model:
replace in place when the key exists, else append. -/
def dictSet (m : List (Nat × String)) (k : Nat) (v : String) : List (Nat × String) :=
  if m.any (fun p => p.1 == k) then
    m.map (fun p => if p.1 == k then (k, v) else p)
  else m ++ [(k, v)]

/-- Error message raised when the root object has no questions list. -/
def rootObjMsg : String :=
  "JSON root is an object but no valid \x27questions\x27 array was found."

/-- Error message raised when no entry builds into a valid record. -/
def noValidMsg : String :=
  "No valid questions found. Each question needs \x27question\x27, \x27answer\x27, and 4 \x27options\x27."

/-- Error message raised when the root is neither a list nor a dict. -/
def unsupportedMsg : String :=
  "Unsupported JSON structure. Expect a list or an object with a \x27questions\x27 array."

/-- QuizApp._load_from_data (quiz_app.py lines 207-253), restricted to
the modelled state.  Mirrors the mutation order of the source: the
method begins with self.metadata = \x7b\x7d, reads and installs the v2
metadata before the "no valid questions" check, and only commits
questions/user_answers/current_index on success.  A raise in the source
propagates to the caller with the mutations made so far kept, so the
model returns the (possibly partially mutated) state together with an
optional error message.  Config flags and window titles only touch GUI
widgets and are omitted. -/
def load_from_data (st : AppState) (data : JVal) : AppState × Option String :=
  let st0 : AppState := { st with metadata := [] }
  match data with
  | .arr items =>
      let parsed := parse_questions_list items
      if parsed.isEmpty then (st0, some noValidMsg)
      else ({ st0 with questions := parsed, user_answers := [], current_index := 0 }, none)
  | .obj fields =>
      match objGet fields "questions" with
      | some (.arr qitems) =>
          let parsed := parse_questions_list qitems
          let st1 : AppState :=
            match objGet fields "metadata" with
            | some (.obj md) => { st0 with metadata := md }
            | _ => st0
          if parsed.isEmpty then (st1, some noValidMsg)
          else ({ st1 with questions := parsed, user_answers := [], current_index := 0 }, none)
      | _ => (st0, some rootObjMsg)
  | _ => (st0, some unsupportedMsg)

/-- QuizApp.record_choice: user_answers[current_index] = letter. -/
def record_choice (st : AppState) (letter : String) : AppState :=
  { st with user_answers := dictSet st.user_answers st.current_index letter }

/-- QuizApp.next_question: advance current_index when not at the last
question (load_question re-assigns the same in-range index). -/
def next_question (st : AppState) : AppState :=
  if st.current_index < st.questions.length - 1 then
    { st with current_index := st.current_index + 1 }
  else st

/-- QuizApp.prev_question: retreat current_index when not at 0. -/
def prev_question (st : AppState) : AppState :=
  if 0 < st.current_index then
    { st with current_index := st.current_index - 1 }
  else st

/-- Truthiness of self.user_answers.get(i): present and non-empty. -/
def answeredB (ans : List (Nat × String)) (i : Nat) : Bool :=
  match dictGet ans i with
  | some a => a != ""
  | none => false

/-- The answered count computed by QuizApp.progress_text. -/
def answeredCount (st : AppState) : Nat :=
  (List.range st.questions.length).countP (answeredB st.user_answers)

/-- QuizApp.progress_text. -/
def progress_text (st : AppState) : String :=
  let total := st.questions.length
  let qn := if 0 < total then st.current_index + 1 else 0
  "Answered " ++ toString (answeredCount st) ++ "/" ++ toString total ++
    " | Q " ++ toString qn ++ "/" ++ toString total

/-- The index QuizApp.jump_unanswered moves to: the first i with no
recorded answer or a falsy (empty) one; none when every question has a
present, non-empty answer (the source then only shows a message box). -/
def firstUnanswered (st : AppState) : Option Nat :=
  (List.range st.questions.length).find? (fun i => !answeredB st.user_answers i)

/-- Round-half-even of 1000*correct/total, i.e. the percentage in tenths
as produced by Python's "%.1f" formatting of 100.0*correct/total (the
model rounds the exact rational; the binary-double detour is exact for
every concrete ratio used below). -/
def pctTenths (correct total : Nat) : Nat :=
  if total = 0 then 0
  else
    let n := 1000 * correct
    let q := n / total
    let r := n % total
    if 2 * r < total then q
    else if total < 2 * r then q + 1
    else if q % 2 = 0 then q else q + 1

/-- Python f"\x7bpct:.1f\x7d" for pct = 100.0*correct/total. -/
def fmt1 (correct total : Nat) : String :=
  toString (pctTenths correct total / 10) ++ "." ++ toString (pctTenths correct total % 10)

/-- Per-question correctness in quiz_app.py's submit_quiz (line 524):
ok = (user == letter) with user = user_answers.get(i, "(blank)") and no
guard on an empty answer_letter. -/
def okMain (ans : List (Nat × String)) (i : Nat) (q : QuestionRecord) : Bool :=
  (dictGet ans i).getD "(blank)" == q.answer_letter

/-- Correct-answer count of quiz_app.py's submit_quiz. -/
def correctCountMain (qs : List QuestionRecord) (ans : List (Nat × String)) : Nat :=
  qs.enum.countP (fun p => okMain ans p.1 p.2)

/-- One result row of quiz_app.py's submit_quiz (line 527). -/
def rowMain (ans : List (Nat × String)) (i : Nat) (q : QuestionRecord) : String :=
  let user := (dictGet ans i).getD "(blank)"
  "Q" ++ toString (i + 1) ++ ": " ++ (if okMain ans i q then "✔" else "✘") ++
    "  Your: " ++ (if user = "" then "(blank)" else user) ++
    "   Correct: " ++ q.answer_letter

/-- The score line of quiz_app.py's submit_quiz (line 529), embedded
newlines included. -/
def scoreLineMain (qs : List QuestionRecord) (ans : List (Nat × String)) : String :=
  "\nScore: " ++ toString (correctCountMain qs ans) ++ "/" ++ toString qs.length ++
    "  (" ++ fmt1 (correctCountMain qs ans) qs.length ++ "%)\n"

/-- The lines list built by quiz_app.py's submit_quiz before joining
with newlines: "Results:" header first, one row per question, score last. -/
def summaryLinesMain (qs : List QuestionRecord) (ans : List (Nat × String)) : List String :=
  "Results:\n" :: (qs.enum.map (fun p => rowMain ans p.1 p.2) ++ [scoreLineMain qs ans])

/-- The summary text of quiz_app.py's submit_quiz. -/
def summaryTextMain (qs : List QuestionRecord) (ans : List (Nat × String)) : String :=
  String.intercalate "\n" (summaryLinesMain qs ans)

/-- Per-question correctness in quiz_app_v1.2.py / demo's submit_quiz:
is_correct = (user_letter == correct_letter) if correct_letter else False,
with user_letter = user_answers.get(idx, ""). -/
def isCorrectV12 (ans : List (Nat × String)) (i : Nat) (q : QuestionRecord) : Bool :=
  if q.answer_letter = "" then false
  else (dictGet ans i).getD "" == q.answer_letter

/-- Correct-answer count of the v1.2/demo submit_quiz. -/
def correctCountV12 (qs : List QuestionRecord) (ans : List (Nat × String)) : Nat :=
  qs.enum.countP (fun p => isCorrectV12 ans p.1 p.2)

/-- Python f"\x7bs:<w\x7d": left-justify to width w with spaces. -/
def padTo (s : String) (w : Nat) : String :=
  s ++ String.mk (List.replicate (w - s.data.length) ' ')

/-- One detailed row of the v1.2/demo submit_quiz: 1-based position,
user letter or "-", correct letter or "?", check mark. -/
def rowV12 (ans : List (Nat × String)) (i : Nat) (q : QuestionRecord) : String :=
  let u := (dictGet ans i).getD ""
  padTo (toString (i + 1)) 2 ++ " " ++
    padTo (if u = "" then "-" else u) 5 ++ " " ++
    padTo (if q.answer_letter = "" then "?" else q.answer_letter) 7 ++ " " ++
    (if isCorrectV12 ans i q then "✓" else "✗")

/-- The header score line of the v1.2/demo submit_quiz. -/
def headerV12 (qs : List QuestionRecord) (ans : List (Nat × String)) : String :=
  "Score: " ++ toString (correctCountV12 qs ans) ++ "/" ++ toString qs.length ++
    "  (" ++ fmt1 (correctCountV12 qs ans) qs.length ++ "%)"

/-- The result_lines list of the v1.2/demo submit_quiz: score header,
blank line, column header, then one row per question in quiz order. -/
def summaryLinesV12 (qs : List QuestionRecord) (ans : List (Nat × String)) : List String :=
  headerV12 qs ans :: "" :: "#  Your  Correct  ✓/✗" ::
    qs.enum.map (fun p => rowV12 ans p.1 p.2)

/-- The summary text of the v1.2/demo submit_quiz. -/
def summaryTextV12 (qs : List QuestionRecord) (ans : List (Nat × String)) : String :=
  String.intercalate "\n" (summaryLinesV12 qs ans)

/-- The UTF-8 byte-order mark stripped by reading with encoding
utf-8-sig (at most one leading occurrence). -/
def bomChar : Char := '﻿'

/-- BOM stripping performed by Path.read_text(encoding="utf-8-sig"). -/
def stripBOM : List Char → List Char
  | [] => []
  | c :: rest => if c == bomChar then rest else c :: rest

/-- The character class [\s\[\x7b,] preceding a line comment in the
first regex of _read_json_loose, plus the line-start alternative
(prev = none). -/
def prevOk : Option Char → Bool
  | none => true
  | some c => isPySpace c || c == '[' || c == '\x7b' || c == ','

/-- One line of the first regex substitution of _read_json_loose,
re.sub(r, "\1", ..., MULTILINE) with r = (^|[\s\[\x7b,])//.*?$ :
truncate the line at the first "//" that starts the line or follows
whitespace, "[", "\x7b" or ",". -/
def lineComment : Option Char → List Char → List Char
  | _, [] => []
  | prev, c :: rest =>
      if c == '/' && rest.head? == some '/' && prevOk prev then []
      else c :: lineComment (some c) rest

/-- Split a character list into its newline-separated lines
(the separators are not kept; n newlines give n+1 lines). -/
def splitNl : List Char → List (List Char)
  | [] => [[]]
  | c :: rest =>
      if c == '\n' then [] :: splitNl rest
      else
        match splitNl rest with
        | [] => [[c]]
        | l :: ls => (c :: l) :: ls

/-- Rejoin lines with newlines; left inverse of splitNl. -/
def joinNl : List (List Char) → List Char
  | [] => []
  | [l] => l
  | l :: ls => l ++ '\n' :: joinNl ls

/-- First preprocessing pass of _read_json_loose: remove // comments
that start a line or follow whitespace/bracket/comma, to end of line. -/
def pass1 (l : List Char) : List Char :=
  joinNl ((splitNl l).map (lineComment none))

/-- Whether "*/" occurs somewhere in the list (the condition for the
non-greedy block-comment regex to match once "/*" has been seen). -/
def hasClose : List Char → Bool
  | [] => false
  | c :: rest => (c == '*' && rest.head? == some '/') || hasClose rest

/-- Second preprocessing pass of _read_json_loose,
re.sub("/\*.*?\*/", "", ..., DOTALL): remove each "/*" up to the
nearest following "*/"; a "/*" with no later "*/" matches nothing and
is kept (and then nothing later can match either). -/
def blockAux : Bool → List Char → List Char
  | _, [] => []
  | true, '*' :: '/' :: rest => blockAux false rest
  | true, _ :: rest => blockAux true rest
  | false, '/' :: '*' :: rest =>
      if hasClose rest then blockAux true rest else '/' :: '*' :: rest
  | false, c :: rest => c :: blockAux false rest

/-- The block-comment removal pass. -/
def pass2 (l : List Char) : List Char := blockAux false l

/-- Third preprocessing pass of _read_json_loose,
re.sub(",\s*([\]\x7d])", "\1", ...): drop a comma (and the whitespace
after it) whose next non-whitespace character is a closing bracket.
The first argument buffers a pending comma plus following whitespace. -/
def pass3Aux : List Char → List Char → List Char
  | pending, [] => pending
  | pending, c :: rest =>
      if pending.isEmpty then
        if c == ',' then pass3Aux [','] rest
        else c :: pass3Aux [] rest
      else
        if isPySpace c then pass3Aux (pending ++ [c]) rest
        else if c == ']' || c == '\x7d' then c :: pass3Aux [] rest
        else if c == ',' then pending ++ pass3Aux [','] rest
        else pending ++ c :: pass3Aux [] rest

/-- The trailing-comma removal pass. -/
def pass3 (l : List Char) : List Char := pass3Aux [] l

/-- The full text preprocessing of _read_json_loose: BOM strip, then
line-comment, block-comment and trailing-comma removal, in the order
of the source. -/
def preprocessL (l : List Char) : List Char :=
  pass3 (pass2 (pass1 (stripBOM l)))

/-- String-level preprocessing of _read_json_loose. -/
def preprocessStr (s : String) : String := String.mk (preprocessL s.data)

/-- JSON whitespace skipped by the strict parser (exactly space, tab,
newline, carriage return, as in RFC 8259 / Python's json module). -/
def skipWs (l : List Char) : List Char :=
  l.dropWhile (fun c => c == ' ' || c == '\t' || c == '\n' || c == '\r')

/-- Value of a hexadecimal digit. -/
def hexVal (c : Char) : Option Nat :=
  if '0' ≤ c ∧ c ≤ '9' then some (c.toNat - 48)
  else if 'a' ≤ c ∧ c ≤ 'f' then some (c.toNat - 87)
  else if 'A' ≤ c ∧ c ≤ 'F' then some (c.toNat - 55)
  else none

/-- Single-character JSON string escapes. -/
def escChar : Char → Option Char
  | '"' => some '"'
  | '\\' => some '\\'
  | '/' => some '/'
  | 'b' => some '\x08'
  | 'f' => some '\x0c'
  | 'n' => some '\n'
  | 'r' => some '\r'
  | 't' => some '\t'
  | _ => none

/-- Body of a JSON string after the opening quote: returns the decoded
characters and the remainder after the closing quote.  Unescaped
control characters and unknown escapes fail, as in strict JSON. -/
def parseStringBody : List Char → Option (List Char × List Char)
  | [] => none
  | '"' :: rest => some ([], rest)
  | '\\' :: 'u' :: h1 :: h2 :: h3 :: h4 :: rest =>
      match hexVal h1, hexVal h2, hexVal h3, hexVal h4 with
      | some a, some b, some c, some d =>
          (parseStringBody rest).map
            (fun p => (Char.ofNat (((a * 16 + b) * 16 + c) * 16 + d) :: p.1, p.2))
      | _, _, _, _ => none
  | '\\' :: e :: rest =>
      match escChar e with
      | some c => (parseStringBody rest).map (fun p => (c :: p.1, p.2))
      | none => none
  | c :: rest =>
      if c.toNat < 32 then none
      else (parseStringBody rest).map (fun p => (c :: p.1, p.2))

/-- Optional fraction part of a JSON number (returns its characters and
the remainder; empty when absent; fails on a dot with no digits). -/
def parseFrac : List Char → Option (List Char × List Char)
  | '.' :: rest =>
      let ds := rest.takeWhile Char.isDigit
      if ds.isEmpty then none
      else some ('.' :: ds, rest.dropWhile Char.isDigit)
  | l => some ([], l)

/-- Optional exponent part of a JSON number. -/
def parseExp : List Char → Option (List Char × List Char)
  | [] => some ([], [])
  | c :: rest =>
      if c == 'e' || c == 'E' then
        match rest with
        | '+' :: r =>
            let ds := r.takeWhile Char.isDigit
            if ds.isEmpty then none
            else some (c :: '+' :: ds, r.dropWhile Char.isDigit)
        | '-' :: r =>
            let ds := r.takeWhile Char.isDigit
            if ds.isEmpty then none
            else some (c :: '-' :: ds, r.dropWhile Char.isDigit)
        | r =>
            let ds := r.takeWhile Char.isDigit
            if ds.isEmpty then none
            else some (c :: ds, r.dropWhile Char.isDigit)
      else some ([], c :: rest)

/-- A JSON number, returned as its source token. -/
def parseNum (l : List Char) : Option (String × List Char) :=
  let sgn : List Char × List Char :=
    match l with
    | '-' :: rest => (['-'], rest)
    | _ => ([], l)
  match sgn.2 with
  | [] => none
  | c :: rest =>
      if c == '0' then
        match parseFrac rest with
        | some (f, r1) =>
            match parseExp r1 with
            | some (e, r2) => some (String.mk (sgn.1 ++ c :: (f ++ e)), r2)
            | none => none
        | none => none
      else if c.isDigit then
        let ds := rest.takeWhile Char.isDigit
        let r0 := rest.dropWhile Char.isDigit
        match parseFrac r0 with
        | some (f, r1) =>
            match parseExp r1 with
            | some (e, r2) => some (String.mk (sgn.1 ++ c :: (ds ++ f ++ e)), r2)
            | none => none
        | none => none
      else none

/-- Python-dict insertion used while parsing an object: a repeated key
replaces the earlier value in place, otherwise the pair is appended. -/
def objInsert (kvs : List (String × JVal)) (k : String) (v : JVal) : List (String × JVal) :=
  if kvs.any (fun p => p.1 == k) then
    kvs.map (fun p => if p.1 == k then (k, v) else p)
  else kvs ++ [(k, v)]

mutual
/-- Strict JSON value parser (the semantics of json.loads on the
documents this repository handles), fuelled so that every function is
structurally recursive and evaluates inside the kernel. -/
def parseVal : Nat → List Char → Option (JVal × List Char)
  | 0, _ => none
  | fuel + 1, l =>
      match skipWs l with
      | 'n' :: 'u' :: 'l' :: 'l' :: r => some (.null, r)
      | 't' :: 'r' :: 'u' :: 'e' :: r => some (.bool true, r)
      | 'f' :: 'a' :: 'l' :: 's' :: 'e' :: r => some (.bool false, r)
      | '"' :: r => (parseStringBody r).map (fun p => (.str (String.mk p.1), p.2))
      | '[' :: r =>
          (match skipWs r with
           | ']' :: r2 => some (.arr [], r2)
           | r2 => (parseItems fuel r2).map (fun p => (.arr p.1, p.2)))
      | '\x7b' :: r =>
          (match skipWs r with
           | '\x7d' :: r2 => some (.obj [], r2)
           | r2 => (parseMembers fuel [] r2).map (fun p => (.obj p.1, p.2)))
      | l1 => (parseNum l1).map (fun p => (.num p.1, p.2))

/-- One or more comma-separated array items up to "]". -/
def parseItems : Nat → List Char → Option (List JVal × List Char)
  | 0, _ => none
  | fuel + 1, l =>
      match parseVal fuel l with
      | some (v, r) =>
          (match skipWs r with
           | ',' :: r2 => (parseItems fuel r2).map (fun p => (v :: p.1, p.2))
           | ']' :: r2 => some ([v], r2)
           | _ => none)
      | none => none

/-- One or more comma-separated object members up to "\x7d", inserted
with Python-dict replacement semantics. -/
def parseMembers : Nat → List (String × JVal) → List Char → Option (List (String × JVal) × List Char)
  | 0, _, _ => none
  | fuel + 1, acc, l =>
      match skipWs l with
      | '"' :: r =>
          (match parseStringBody r with
           | some (kcs, r1) =>
               (match skipWs r1 with
                | ':' :: r2 =>
                    (match parseVal fuel r2 with
                     | some (v, r3) =>
                         (match skipWs r3 with
                          | ',' :: r4 => parseMembers fuel (objInsert acc (String.mk kcs) v) r4
                          | '\x7d' :: r4 => some (objInsert acc (String.mk kcs) v, r4)
                          | _ => none)
                     | none => none)
                | _ => none)
           | none => none)
      | _ => none
end

/-- json.loads: parse one value and require only whitespace after it. -/
def jsonLoads (s : String) : Option JVal :=
  match parseVal (2 * s.data.length + 2) s.data with
  | some (v, r) => if (skipWs r).isEmpty then some v else none
  | none => none

/-- _read_json_loose (quiz_app.py lines 11-19) at the text level: BOM
strip and the three regex passes, then json.loads on the result. -/
def read_json_loose (text : String) : Option JVal :=
  jsonLoads (preprocessStr text)

/-- Whether the line-comment regex matches somewhere in one line, given
the character before the scan position (none at line start). -/
def hasLC : Option Char → List Char → Bool
  | _, [] => false
  | prev, c :: rest =>
      (c == '/' && rest.head? == some '/' && prevOk prev) || hasLC (some c) rest

/-- Whether the block-comment regex matches somewhere in the text:
a "/*" with a later "*/". -/
def hasBC : List Char → Bool
  | [] => false
  | c :: rest =>
      (c == '/' && rest.head? == some '*' && hasClose rest.tail) || hasBC rest

/-- Whether the next non-whitespace character is a closing bracket
(the condition for the trailing-comma regex to match at a comma). -/
def bracketAfterWs (l : List Char) : Bool :=
  match l.dropWhile isPySpace with
  | ']' :: _ => true
  | '\x7d' :: _ => true
  | _ => false

/-- Whether the trailing-comma regex matches somewhere in the text. -/
def hasTC : List Char → Bool
  | [] => false
  | c :: rest => (c == ',' && bracketAfterWs rest) || hasTC rest

/- ===================== Theorems ===================== -/

/-- The accumulation loop of _parse_questions_list keeps exactly the
entries that build, in their original relative order. -/
theorem parse_eq_filterMap (items : List JVal) :
    parse_questions_list items = items.filterMap buildQuestion := by
  induction items with
  | nil => rfl
  | cons item rest ih =>
      cases h : buildQuestion item with
      | none => simp [parse_questions_list, List.filterMap_cons, h, ih]
      | some r => simp [parse_questions_list, List.filterMap_cons, h, ih]

/-- Replacing an existing key in the answers dict is observable at that key. -/
theorem find?_map_replace (m : List (Nat × String)) (k : Nat) (v : String)
    (h : m.any (fun p => p.1 == k) = true) :
    ((m.map (fun p => if p.1 == k then (k, v) else p)).find?
        (fun p => p.1 == k)).map (fun p => p.2) = some v := by
  induction m with
  | nil => simp at h
  | cons p rest ih =>
      by_cases hpk : (p.1 == k) = true
      · simp only [List.map_cons, if_pos hpk, List.find?_cons, beq_self_eq_true]
        rfl
      · have hpk' : (p.1 == k) = false := by simpa using hpk
        have hrest : rest.any (fun p => p.1 == k) = true := by
          simpa [List.any_cons, hpk'] using h
        simp only [List.map_cons, List.find?_cons, hpk', Bool.false_eq_true, if_false]
        exact ih hrest

/-- Reading back the key just written in the answers dict. -/
theorem dictGet_dictSet_self (m : List (Nat × String)) (k : Nat) (v : String) :
    dictGet (dictSet m k v) k = some v := by
  unfold dictSet dictGet
  by_cases h : m.any (fun p => p.1 == k) = true
  · rw [if_pos h]
    exact find?_map_replace m k v h
  · rw [if_neg h]
    have hnone : m.find? (fun p => p.1 == k) = none :=
      List.find?_eq_none.mpr (fun x hx hpx => h (List.any_eq_true.mpr ⟨x, hx, hpx⟩))
    simp [List.find?_append, hnone, List.find?_cons]

/-- The truthiness test of user_answers.get(i) in claim vocabulary. -/
theorem answeredB_iff (ans : List (Nat × String)) (i : Nat) :
    answeredB ans i = true ↔ ∃ a, dictGet ans i = some a ∧ a ≠ "" := by
  unfold answeredB
  cases h : dictGet ans i with
  | none => simp
  | some a => simp [bne_iff_ne]

/-- C9 (confirmed): for every state with a valid current index,
next_question and prev_question keep the index within [0, count-1],
next_question at the last index is a no-op, and prev_question at index
0 is a no-op. -/
theorem c9_navigation_clamped (st : AppState)
    (h : st.current_index < st.questions.length) :
    (next_question st).current_index < st.questions.length ∧
    (prev_question st).current_index < st.questions.length ∧
    (st.current_index = st.questions.length - 1 → next_question st = st) ∧
    (st.current_index = 0 → prev_question st = st) := by
  refine ⟨?_, ?_, ?_, ?_⟩
  · unfold next_question
    split
    · simpa using by omega
    · simpa using h
  · unfold prev_question
    split
    · simpa using by omega
    · simpa using h
  · intro hb
    unfold next_question
    rw [if_neg (by omega)]
  · intro hb
    unfold prev_question
    rw [if_neg (by omega)]

/-- Witness for C9 at a concrete two-question session at the last index. -/
theorem c9_navigation_clamped_witness :
    (next_question ⟨[⟨"q1", "A", none, .str ""⟩, ⟨"q2", "B", none, .str ""⟩], [], 1, []⟩).current_index <
      (AppState.mk [⟨"q1", "A", none, .str ""⟩, ⟨"q2", "B", none, .str ""⟩] [] 1 []).questions.length ∧
    (prev_question ⟨[⟨"q1", "A", none, .str ""⟩, ⟨"q2", "B", none, .str ""⟩], [], 1, []⟩).current_index <
      (AppState.mk [⟨"q1", "A", none, .str ""⟩, ⟨"q2", "B", none, .str ""⟩] [] 1 []).questions.length ∧
    ((AppState.mk [⟨"q1", "A", none, .str ""⟩, ⟨"q2", "B", none, .str ""⟩] [] 1 []).current_index =
        (AppState.mk [⟨"q1", "A", none, .str ""⟩, ⟨"q2", "B", none, .str ""⟩] [] 1 []).questions.length - 1 →
      next_question ⟨[⟨"q1", "A", none, .str ""⟩, ⟨"q2", "B", none, .str ""⟩], [], 1, []⟩ =
        ⟨[⟨"q1", "A", none, .str ""⟩, ⟨"q2", "B", none, .str ""⟩], [], 1, []⟩) ∧
    ((AppState.mk [⟨"q1", "A", none, .str ""⟩, ⟨"q2", "B", none, .str ""⟩] [] 1 []).current_index = 0 →
      prev_question ⟨[⟨"q1", "A", none, .str ""⟩, ⟨"q2", "B", none, .str ""⟩], [], 1, []⟩ =
        ⟨[⟨"q1", "A", none, .str ""⟩, ⟨"q2", "B", none, .str ""⟩], [], 1, []⟩) :=
  c9_navigation_clamped ⟨[⟨"q1", "A", none, .str ""⟩, ⟨"q2", "B", none, .str ""⟩], [], 1, []⟩
    (by decide)

/-- C10 (confirmed): a list element that is not a mapping builds no
record, is skipped by the question parser without affecting the other
entries, and the outcome of the load is identical with or without it. -/
theorem c10_nondict_skipped :
    (∀ v : JVal, (∀ fields, v ≠ .obj fields) → buildQuestion v = none) ∧
    (∀ (v : JVal) (items : List JVal), (∀ fields, v ≠ .obj fields) →
      parse_questions_list (v :: items) = parse_questions_list items) ∧
    (∀ (st : AppState) (v : JVal) (items : List JVal), (∀ fields, v ≠ .obj fields) →
      load_from_data st (.arr (v :: items)) = load_from_data st (.arr items)) := by
  have hbuild : ∀ v : JVal, (∀ fields, v ≠ .obj fields) → buildQuestion v = none := by
    intro v hv
    cases v with
    | obj fields => exact absurd rfl (hv fields)
    | null => rfl
    | bool b => rfl
    | num s => rfl
    | str s => rfl
    | arr xs => rfl
  have hparse : ∀ (v : JVal) (items : List JVal), (∀ fields, v ≠ .obj fields) →
      parse_questions_list (v :: items) = parse_questions_list items := by
    intro v items hv
    simp [parse_questions_list, hbuild v hv]
  refine ⟨hbuild, hparse, ?_⟩
  intro st v items hv
  simp only [load_from_data, hparse v items hv]

/-- Witness for C10: loading a list whose head is a bare string still
succeeds thanks to the later valid entry. -/
theorem c10_nondict_skipped_witness :
    load_from_data ⟨[], [], 0, []⟩
        (.arr [.str "hello", .obj [("question", .str "Q1"), ("answer", .str "B. x")]]) =
      load_from_data ⟨[], [], 0, []⟩
        (.arr [.obj [("question", .str "Q1"), ("answer", .str "B. x")]]) ∧
    (load_from_data ⟨[], [], 0, []⟩
        (.arr [.obj [("question", .str "Q1"), ("answer", .str "B. x")]])).2 = none :=
  ⟨c10_nondict_skipped.2.2 ⟨[], [], 0, []⟩ (.str "hello")
      [.obj [("question", .str "Q1"), ("answer", .str "B. x")]]
      (fun _ h => JVal.noConfusion h),
    rfl⟩

/-- C8 (confirmed): an explicitly recorded empty answer is treated as
unanswered: after recording "B" and then "" on the current question,
the predicate counted by progress is false there; and jump_unanswered
finds no index exactly when every question has a present, non-empty
recorded answer. -/
theorem c8_empty_answer_unanswered :
    (∀ st : AppState,
      answeredB (record_choice (record_choice st "B") "").user_answers
        st.current_index = false) ∧
    (∀ st : AppState,
      firstUnanswered st = none ↔
        ∀ i, i < st.questions.length →
          ∃ a, dictGet st.user_answers i = some a ∧ a ≠ "") := by
  constructor
  · intro st
    unfold record_choice answeredB
    simp only
    rw [dictGet_dictSet_self]
    rfl
  · intro st
    unfold firstUnanswered
    rw [List.find?_eq_none]
    constructor
    · intro hall i hi
      have := hall i (List.mem_range.mpr hi)
      rw [(answeredB_iff st.user_answers i).symm]
      simpa using this
    · intro hall i hi
      have hb := (answeredB_iff st.user_answers i).mpr
        (hall i (List.mem_range.mp hi))
      simp [hb]

/-- Witness for C8 at a concrete one-question session. -/
theorem c8_empty_answer_unanswered_witness :
    answeredB (record_choice (record_choice
        ⟨[⟨"q1", "A", none, .str ""⟩], [], 0, []⟩ "B") "").user_answers
      (AppState.mk [⟨"q1", "A", none, .str ""⟩] [] 0 []).current_index = false ∧
    (firstUnanswered ⟨[⟨"q1", "A", none, .str ""⟩], [(0, "A")], 0, []⟩ = none ↔
      ∀ i, i < (AppState.mk [⟨"q1", "A", none, .str ""⟩] [(0, "A")] 0 []).questions.length →
        ∃ a, dictGet (AppState.mk [⟨"q1", "A", none, .str ""⟩] [(0, "A")] 0 []).user_answers i = some a ∧ a ≠ "") :=
  ⟨c8_empty_answer_unanswered.1 ⟨[⟨"q1", "A", none, .str ""⟩], [], 0, []⟩,
    c8_empty_answer_unanswered.2 ⟨[⟨"q1", "A", none, .str ""⟩], [(0, "A")], 0, []⟩⟩

/-- C1 (corrected): characterisation of both scorers.  The v1.2/demo
scorer marks a question correct exactly when the recorded letter equals
the correct letter and the correct letter is non-empty (the claim as
stated).  The quiz_app.py scorer instead compares the recorded value
(with the "(blank)" sentinel when absent) to the stored letter with no
non-empty guard, so a question with an empty correct letter is counted
correct precisely when an empty answer was explicitly recorded; for an
absent answer or any recorded non-empty answer it is never counted. -/
theorem c1_scorer_amended :
    (∀ (ans : List (Nat × String)) (i : Nat) (q : QuestionRecord),
      isCorrectV12 ans i q = true ↔
        ((dictGet ans i).getD "" = q.answer_letter ∧ q.answer_letter ≠ "")) ∧
    (∀ (ans : List (Nat × String)) (i : Nat) (q : QuestionRecord),
      okMain ans i q = true ↔ (dictGet ans i).getD "(blank)" = q.answer_letter) ∧
    (∀ (ans : List (Nat × String)) (i : Nat) (q : QuestionRecord),
      q.answer_letter = "" → (∀ a, dictGet ans i = some a → a ≠ "") →
      okMain ans i q = false) := by
  refine ⟨?_, ?_, ?_⟩
  · intro ans i q
    unfold isCorrectV12
    by_cases hq : q.answer_letter = ""
    · simp [hq]
    · simp [hq, beq_iff_eq]
  · intro ans i q
    unfold okMain
    simp [beq_iff_eq]
  · intro ans i q hq hne
    unfold okMain
    cases hd : dictGet ans i with
    | none => simp [hq]
    | some a => simp [hq, hne a hd]

/-- Witness for C1 applying the amended characterisation at a concrete
question with no determinable correct letter and a recorded letter. -/
theorem c1_scorer_amended_witness :
    okMain [(0, "A")] 0 ⟨"q", "", none, .str ""⟩ = false :=
  c1_scorer_amended.2.2 [(0, "A")] 0 ⟨"q", "", none, .str ""⟩ rfl
    (fun a h => by
      have ha : a = "A" := by
        have h2 : some "A" = some a := h
        exact (Option.some.inj h2).symm
      rw [ha]
      decide)

/-- C1 counterexample: in quiz_app.py's submit_quiz, a question whose
correct letter is empty IS counted correct when the recorded answer is
the empty string, contradicting the claim that a question with no
determinable correct letter can never register as correct. -/
theorem c1_scorer_counterexample :
    okMain [(0, "")] 0 ⟨"q", "", none, .str ""⟩ = true ∧
    (QuestionRecord.mk "q" "" none (.str "")).answer_letter = "" ∧
    correctCountMain [⟨"q", "", none, .str ""⟩] [(0, "")] = 1 := by
  exact ⟨rfl, rfl, rfl⟩

/-- C2 (corrected): when a load fails, the previously loaded questions,
user answers and current index are untouched, but the metadata is NOT:
the method clears self.metadata on entry (and may even install the new
document's metadata before discovering there are no valid questions). -/
theorem c2_failed_load_amended (st : AppState) (data : JVal)
    (h : ((load_from_data st data).2).isSome = true) :
    (load_from_data st data).1.questions = st.questions ∧
    (load_from_data st data).1.user_answers = st.user_answers ∧
    (load_from_data st data).1.current_index = st.current_index := by
  cases data with
  | arr items =>
      by_cases hp : (parse_questions_list items).isEmpty = true
      · simp [load_from_data, hp]
      · simp [load_from_data, hp] at h
  | obj fields =>
      cases hq : objGet fields "questions" with
      | none => simp [load_from_data, hq]
      | some v =>
          cases v with
          | arr qitems =>
              by_cases hp : (parse_questions_list qitems).isEmpty = true
              · cases hm : objGet fields "metadata" with
                | none => simp [load_from_data, hq, hp, hm]
                | some m =>
                    cases m <;> simp [load_from_data, hq, hp, hm]
              · cases hm : objGet fields "metadata" with
                | none => simp [load_from_data, hq, hp, hm] at h
                | some m =>
                    cases m <;> simp [load_from_data, hq, hp, hm] at h
          | null => simp [load_from_data, hq]
          | bool b => simp [load_from_data, hq]
          | num s => simp [load_from_data, hq]
          | str s => simp [load_from_data, hq]
          | obj kvs => simp [load_from_data, hq]
  | null => simp [load_from_data]
  | bool b => simp [load_from_data]
  | num s => simp [load_from_data]
  | str s => simp [load_from_data]

/-- Witness for C2: a failing load over a previously loaded session
keeps questions, user answers and current index. -/
theorem c2_failed_load_amended_witness :
    (load_from_data ⟨[⟨"q1", "A", none, .str ""⟩], [(0, "A")], 0, [("k", .str "v")]⟩ (.num "7")).1.questions =
      (AppState.mk [⟨"q1", "A", none, .str ""⟩] [(0, "A")] 0 [("k", .str "v")]).questions ∧
    (load_from_data ⟨[⟨"q1", "A", none, .str ""⟩], [(0, "A")], 0, [("k", .str "v")]⟩ (.num "7")).1.user_answers =
      (AppState.mk [⟨"q1", "A", none, .str ""⟩] [(0, "A")] 0 [("k", .str "v")]).user_answers ∧
    (load_from_data ⟨[⟨"q1", "A", none, .str ""⟩], [(0, "A")], 0, [("k", .str "v")]⟩ (.num "7")).1.current_index =
      (AppState.mk [⟨"q1", "A", none, .str ""⟩] [(0, "A")] 0 [("k", .str "v")]).current_index :=
  c2_failed_load_amended ⟨[⟨"q1", "A", none, .str ""⟩], [(0, "A")], 0, [("k", .str "v")]⟩
    (.num "7") rfl

/-- C2 counterexample: a failing load (root is a number) clears the
previously stored metadata, so the prior state is not left entirely
unchanged as the claim asserts. -/
theorem c2_metadata_clobbered_counterexample :
    ((load_from_data ⟨[], [], 0, [("k", .str "v")]⟩ (.num "7")).2).isSome = true ∧
    (load_from_data ⟨[], [], 0, [("k", .str "v")]⟩ (.num "7")).1.metadata ≠
      (AppState.mk [] [] 0 [("k", .str "v")]).metadata := by
  constructor
  · rfl
  · intro h
    have h2 : ([] : List (String × JVal)) = [("k", JVal.str "v")] := h
    simp at h2

/-- C5 (confirmed): the question parser keeps exactly the entries that
build into records, in original relative order; a load (list root, or
object root with a questions list) fails exactly when no entry builds,
and on success installs exactly the built records. -/
theorem c5_load_valid_entries :
    (∀ items : List JVal,
      parse_questions_list items = items.filterMap buildQuestion) ∧
    (∀ (st : AppState) (items : List JVal),
      ((load_from_data st (.arr items)).2 = none ↔ items.filterMap buildQuestion ≠ []) ∧
      ((load_from_data st (.arr items)).2 = none →
        (load_from_data st (.arr items)).1.questions = items.filterMap buildQuestion)) ∧
    (∀ (st : AppState) (fields : List (String × JVal)) (qitems : List JVal),
      objGet fields "questions" = some (.arr qitems) →
      ((load_from_data st (.obj fields)).2 = none ↔ qitems.filterMap buildQuestion ≠ []) ∧
      ((load_from_data st (.obj fields)).2 = none →
        (load_from_data st (.obj fields)).1.questions = qitems.filterMap buildQuestion)) := by
  refine ⟨parse_eq_filterMap, ?_, ?_⟩
  · intro st items
    by_cases hp : (parse_questions_list items).isEmpty = true
    · have he : items.filterMap buildQuestion = [] := by
        rw [← parse_eq_filterMap]
        exact List.isEmpty_iff.mp hp
      constructor
      · simp [load_from_data, hp, he]
      · intro h2
        simp [load_from_data, hp] at h2
    · have he : items.filterMap buildQuestion ≠ [] := by
        rw [← parse_eq_filterMap]
        exact fun h2 => hp (List.isEmpty_iff.mpr h2)
      constructor
      · simp [load_from_data, hp, he]
      · intro _
        simp [load_from_data, parse_eq_filterMap, List.isEmpty_iff, he]
  · intro st fields qitems hq
    by_cases hp : (parse_questions_list qitems).isEmpty = true
    · have he : qitems.filterMap buildQuestion = [] := by
        rw [← parse_eq_filterMap]
        exact List.isEmpty_iff.mp hp
      constructor
      · cases hm : objGet fields "metadata" with
        | none => simp [load_from_data, hq, hp, hm, he]
        | some m => cases m <;> simp [load_from_data, hq, hp, hm, he]
      · intro h2
        cases hm : objGet fields "metadata" with
        | none => simp [load_from_data, hq, hp, hm] at h2
        | some m => cases m <;> simp [load_from_data, hq, hp, hm] at h2
    · have he : qitems.filterMap buildQuestion ≠ [] := by
        rw [← parse_eq_filterMap]
        exact fun h2 => hp (List.isEmpty_iff.mpr h2)
      constructor
      · cases hm : objGet fields "metadata" with
        | none => simp [load_from_data, hq, hp, hm, he]
        | some m => cases m <;> simp [load_from_data, hq, hp, hm, he]
      · intro _
        cases hm : objGet fields "metadata" with
        | none => simp [load_from_data, hq, hm, parse_eq_filterMap, List.isEmpty_iff, he]
        | some m =>
            cases m <;> simp [load_from_data, hq, hm, parse_eq_filterMap, List.isEmpty_iff, he]

/-- Witness for C5: a document with one malformed entry (missing
"answer") and one valid entry loads successfully. -/
theorem c5_load_valid_entries_witness :
    (load_from_data ⟨[], [], 0, []⟩
        (.arr [.obj [("question", .str "broken")],
               .obj [("question", .str "Q2"), ("answer", .str "C")]])).2 = none :=
  (c5_load_valid_entries.2.1 ⟨[], [], 0, []⟩
      [.obj [("question", .str "broken")],
       .obj [("question", .str "Q2"), ("answer", .str "C")]]).1.mpr
    (by
      intro h
      have hlen : ([.obj [("question", .str "broken")],
          .obj [("question", .str "Q2"), ("answer", .str "C")]].filterMap buildQuestion).length = 1 := rfl
      rw [h] at hlen
      simp at hlen)

/-- A list starts with itself followed by anything. -/
theorem startsWithL_append_cons (p : List Char) (c : Char) (rest : List Char) :
    startsWithL (p ++ c :: rest) (p ++ [c]) = true := by
  induction p with
  | nil => simp [startsWithL]
  | cons x xs ih => simp [startsWithL, ih]

/-- Element i of the normalised options list is the normalisation of
element i of the raw list (for i < 4). -/
theorem normalizeOptions_get? (opts : List JVal) (i : Nat) (opt : JVal)
    (hi : i < 4) (h : opts.get? i = some opt) :
    (normalizeOptions opts).get? i = some (normOpt i opt) := by
  unfold normalizeOptions
  rw [List.get?_map, List.get?_enum, List.get?_take hi, h]
  rfl

/-- Every normalised option starts, up to letter case, with its own
letter label: its uppercased text has the label as a leading segment. -/
theorem normOpt_label (i : Nat) (hi : i < 4) (opt : JVal) :
    startsWithL (pyUpperL (normOpt i opt).data) ((letterAt i ++ ")").data) = true := by
  unfold normOpt
  by_cases hc : startsWithL (pyUpperL (pyStrip (pyStr opt)).data) ((letterAt i ++ ")").data) = true
  · rw [if_pos hc]
    exact hc
  · rw [if_neg hc]
    have hdata : ((letterAt i ++ ") ") ++ pyStrip (pyStr opt)).data =
        (letterAt i).data ++ ')' :: ' ' :: (pyStrip (pyStr opt)).data := by
      rw [String.data_append, String.data_append, List.append_assoc]
      rfl
    rw [hdata]
    unfold pyUpperL
    rw [List.map_append]
    have hup : List.map Char.toUpper (letterAt i).data = (letterAt i).data := by
      interval_cases i <;> decide
    rw [hup, List.map_cons, List.map_cons]
    have hc1 : Char.toUpper ')' = ')' := by decide
    have hc2 : Char.toUpper ' ' = ' ' := by decide
    rw [hc1, hc2]
    have hdata2 : (letterAt i ++ ")").data = (letterAt i).data ++ [')'] := by
      rw [String.data_append]
    rw [hdata2]
    exact startsWithL_append_cons _ _ _

/-- C7 (corrected): for a raw entry with at least four options the
normalised list has exactly four entries; each entry begins with its
own letter label up to the case of the letter (the uppercased entry
starts with "Letter_i)"), though an entry that arrived with a
lower-case label keeps it verbatim; and when the trimmed raw option
already starts with its label (letter compared case-insensitively) the
builder keeps it unchanged, so labelling is idempotent. -/
theorem c7_options_amended (opts : List JVal) (h4 : 4 ≤ opts.length) :
    (normalizeOptions opts).length = 4 ∧
    (∀ i opt, i < 4 → opts.get? i = some opt →
      (normalizeOptions opts).get? i = some (normOpt i opt) ∧
      startsWithL (pyUpperL (normOpt i opt).data) ((letterAt i ++ ")").data) = true) ∧
    (∀ i opt, i < 4 → opts.get? i = some opt →
      startsWithL (pyUpperL (pyStrip (pyStr opt)).data) ((letterAt i ++ ")").data) = true →
      (normalizeOptions opts).get? i = some (pyStrip (pyStr opt))) := by
  refine ⟨?_, ?_, ?_⟩
  · unfold normalizeOptions
    rw [List.length_map, List.enum_length, List.length_take]
    omega
  · intro i opt hi h
    exact ⟨normalizeOptions_get? opts i opt hi h, normOpt_label i hi opt⟩
  · intro i opt hi h hstart
    rw [normalizeOptions_get? opts i opt hi h]
    unfold normOpt
    rw [if_pos hstart]

/-- Witness for C7: four options where the first already carries a
lower-case label; the list has four entries and the first is kept
verbatim (no second label). -/
theorem c7_options_amended_witness :
    (normalizeOptions [.str "a) x", .str "b", .str "c", .str "d"]).length = 4 ∧
    (normalizeOptions [.str "a) x", .str "b", .str "c", .str "d"]).get? 0 =
      some (pyStrip (pyStr (.str "a) x"))) :=
  ⟨(c7_options_amended [.str "a) x", .str "b", .str "c", .str "d"] (by decide)).1,
   (c7_options_amended [.str "a) x", .str "b", .str "c", .str "d"] (by decide)).2.2
     0 (.str "a) x") (by decide) rfl (by decide)⟩

/-- C7 counterexample: an option supplied with a lower-case label is
kept verbatim, so the built record's entry 0 is "a) x", which does not
begin with the letter label "A)" as literally claimed. -/
theorem c7_lowercase_label_counterexample :
    (buildQuestion (.obj [("question", .str "q"), ("answer", .str "B"),
        ("options", .arr [.str "a) x", .str "b", .str "c", .str "d"])])).map
      QuestionRecord.options = some (some ["a) x", "B) b", "C) c", "D) d"]) ∧
    startsWithL ("a) x".data) (("A" ++ ")").data) = false := by
  exact ⟨rfl, rfl⟩

/-- Row i of the detailed rows list (enum-map) is the row for
question i. -/
theorem rows_get? (f : Nat → QuestionRecord → String) (qs : List QuestionRecord)
    (i : Nat) (hi : i < qs.length) :
    ((qs.enum.map (fun p => f p.1 p.2)).get? i = some (f i (qs.get ⟨i, hi⟩))) := by
  rw [List.get?_map, List.get?_enum, List.get?_eq_get hi]
  rfl

/-- C6 (corrected): the v1.2/demo summary begins with the score header
line "Score: C/T  (P.P%)", followed by a blank line and a column
header, then one row per question in quiz order (1-based position, the
user's letter or "-", the correct letter or "?", and a ✓/✗ marker).
The quiz_app.py summary instead begins with "Results:", has one row
per question showing "(blank)" for a missing answer and the raw
(possibly empty) correct letter, and carries the score line at the
END of the text rather than as its first line. -/
theorem c6_summary_amended (qs : List QuestionRecord) (ans : List (Nat × String))
    (_hne : qs ≠ []) :
    (summaryLinesV12 qs ans).head? = some (headerV12 qs ans) ∧
    (summaryLinesV12 qs ans).length = 3 + qs.length ∧
    (∀ i (hi : i < qs.length),
      (summaryLinesV12 qs ans).get? (3 + i) = some (rowV12 ans i (qs.get ⟨i, hi⟩))) ∧
    (summaryLinesMain qs ans).head? = some "Results:\n" ∧
    (summaryLinesMain qs ans).length = qs.length + 2 ∧
    (∀ i (hi : i < qs.length),
      (summaryLinesMain qs ans).get? (1 + i) = some (rowMain ans i (qs.get ⟨i, hi⟩))) ∧
    (summaryLinesMain qs ans).getLast? = some (scoreLineMain qs ans) := by
  refine ⟨rfl, ?_, ?_, rfl, ?_, ?_, ?_⟩
  · unfold summaryLinesV12
    simp [List.enum_length]
    omega
  · intro i hi
    unfold summaryLinesV12
    rw [Nat.add_comm 3 i]
    rw [show i + 3 = (i + 2) + 1 from rfl, List.get?_cons_succ]
    rw [show i + 2 = (i + 1) + 1 from rfl, List.get?_cons_succ]
    rw [List.get?_cons_succ]
    exact rows_get? (rowV12 ans) qs i hi
  · unfold summaryLinesMain
    simp [List.enum_length]
  · intro i hi
    unfold summaryLinesMain
    rw [Nat.add_comm 1 i, List.get?_cons_succ]
    rw [List.get?_append (by simpa [List.enum_length] using hi)]
    exact rows_get? (rowMain ans) qs i hi
  · unfold summaryLinesMain
    rw [← List.cons_append]
    exact List.getLast?_concat _

/-- Witness for C6 at a concrete one-question session. -/
theorem c6_summary_amended_witness :
    (summaryLinesV12 [⟨"q", "B", none, .str ""⟩] [(0, "B")]).head? =
      some (headerV12 [⟨"q", "B", none, .str ""⟩] [(0, "B")]) ∧
    (summaryLinesMain [⟨"q", "B", none, .str ""⟩] [(0, "B")]).head? = some "Results:\n" :=
  ⟨(c6_summary_amended [⟨"q", "B", none, .str ""⟩] [(0, "B")] (by simp)).1,
   (c6_summary_amended [⟨"q", "B", none, .str ""⟩] [(0, "B")] (by simp)).2.2.2.1⟩

/-- C6 counterexample: for a one-question session, quiz_app.py's
results text does not begin with a "Score:" header; it begins with
"Results:" and the score line is the last element. -/
theorem c6_results_header_counterexample :
    (summaryLinesMain [⟨"q", "B", none, .str ""⟩] []).head? = some "Results:\n" ∧
    startsWithL (summaryTextMain [⟨"q", "B", none, .str ""⟩] []).data ("Score:".data) = false ∧
    startsWithL (summaryTextMain [⟨"q", "B", none, .str ""⟩] []).data ("Results:".data) = true ∧
    (summaryLinesMain [⟨"q", "B", none, .str ""⟩] []).getLast? =
      some (scoreLineMain [⟨"q", "B", none, .str ""⟩] []) := by
  refine ⟨rfl, by decide, by decide, by decide⟩

/-- No whitespace character is one of the A-D choices. -/
theorem choice_not_space (c : Char) (h : isPySpace c = true) : isChoiceChar c = false := by
  simp [isPySpace] at h
  rcases h with (((((h | h) | h) | h) | h) | h) <;> subst h <;> decide

/-- Dropping a leading segment that cannot satisfy the scan predicate
does not change the scan result. -/
theorem find?_dropWhile_not (p q : Char → Bool) (l : List Char)
    (hpq : ∀ c, q c = true → p c = false) :
    (l.dropWhile q).find? p = l.find? p := by
  induction l with
  | nil => rfl
  | cons c rest ih =>
      by_cases hq : q c = true
      · rw [List.dropWhile_cons_of_pos hq, ih, List.find?_cons]
        simp [hpq c hq]
      · rw [List.dropWhile_cons_of_neg hq]

/-- Python strip commutes with the letter scan: stripping whitespace
(which never satisfies the predicate) from either end leaves find?
unchanged. -/
theorem find?_pyStripL (p : Char → Bool) (l : List Char)
    (hpq : ∀ c, isPySpace c = true → p c = false) :
    (pyStripL l).find? p = l.find? p := by
  unfold pyStripL
  have h1 : (l.dropWhile isPySpace).find? p = l.find? p :=
    find?_dropWhile_not p isPySpace l hpq
  rw [← h1]
  set m := l.dropWhile isPySpace with hm
  have hdecomp : (m.reverse.dropWhile isPySpace).reverse ++
      (m.reverse.takeWhile isPySpace).reverse = m := by
    rw [← List.reverse_append, List.takeWhile_append_dropWhile, List.reverse_reverse]
  conv_rhs => rw [← hdecomp]
  rw [List.find?_append]
  have hnone : ((m.reverse.takeWhile isPySpace).reverse).find? p = none := by
    refine List.find?_eq_none.mpr ?_
    intro x hx
    have hsp : isPySpace x = true :=
      List.mem_takeWhile_imp (List.mem_reverse.mp hx)
    simp [hpq x hsp]
  rw [hnone]
  cases (m.reverse.dropWhile isPySpace).reverse.find? p <;> rfl

/-- When exactly one element satisfies the predicate, the left-to-right
scan returns it. -/
theorem find?_of_filter_singleton (p : Char → Bool) (l : List Char) (c : Char)
    (h : l.filter p = [c]) : l.find? p = some c := by
  induction l with
  | nil => simp at h
  | cons x rest ih =>
      by_cases hx : p x = true
      · rw [List.filter_cons_of_pos hx] at h
        injection h with h1 h2
        subst h1
        simp [List.find?_cons, hx]
      · rw [List.filter_cons_of_neg (by simpa using hx)] at h
        rw [List.find?_cons]
        simp only [Bool.not_eq_true] at hx
        simp [hx]
        exact ih h

/-- C3 (confirmed): extract_correct_letter returns "" on non-text
input; on text it returns the uppercased first character of the text
(scanning left to right) whose uppercase form is one of A/B/C/D, or ""
when there is none (the source scans the stripped text, which scans the
same); consequently, a text containing exactly one of A/B/C/D in any
case yields that letter uppercased. -/
theorem c3_extract_letter_spec :
    (∀ v : JVal, (∀ s : String, v ≠ .str s) → extract_correct_letter v = "") ∧
    (∀ s : String, extract_correct_letter (.str s) =
      (match s.data.find? isChoiceChar with
       | some c => String.mk [c.toUpper]
       | none => "")) ∧
    (∀ (s : String) (c : Char), s.data.filter isChoiceChar = [c] →
      extract_correct_letter (.str s) = String.mk [c.toUpper]) := by
  refine ⟨?_, ?_, ?_⟩
  · intro v hv
    cases v with
    | str s => exact absurd rfl (hv s)
    | null => rfl
    | bool b => rfl
    | num s => rfl
    | arr xs => rfl
    | obj kvs => rfl
  · intro s
    simp only [extract_correct_letter]
    rw [find?_pyStripL isChoiceChar s.data choice_not_space]
  · intro s c h
    simp only [extract_correct_letter]
    rw [find?_pyStripL isChoiceChar s.data choice_not_space,
      find?_of_filter_singleton isChoiceChar s.data c h]

/-- Witness for C3: a non-text answer yields "", and the text "x b."
(sole choice letter b, lower case, mid-string) yields "B". -/
theorem c3_extract_letter_spec_witness :
    extract_correct_letter .null = "" ∧
    extract_correct_letter (.str "x b.") = String.mk ['b'.toUpper] ∧
    String.mk ['b'.toUpper] = "B" :=
  ⟨c3_extract_letter_spec.1 .null (fun _ h => JVal.noConfusion h),
   c3_extract_letter_spec.2.2 "x b." 'b' (by decide),
   by decide⟩

/-- A line in which the line-comment regex finds no match is kept
verbatim. -/
theorem lineComment_id (prev : Option Char) (l : List Char)
    (h : hasLC prev l = false) : lineComment prev l = l := by
  induction l generalizing prev with
  | nil => rfl
  | cons c rest ih =>
      simp only [hasLC, Bool.or_eq_false_iff] at h
      simp [lineComment, h.1, ih (some c) h.2]

/-- Splitting on newlines always yields at least one line. -/
theorem splitNl_ne_nil (l : List Char) : splitNl l ≠ [] := by
  cases l with
  | nil => simp [splitNl]
  | cons c rest =>
      simp only [splitNl]
      by_cases hc : (c == '\n') = true
      · simp [hc]
      · simp only [hc, Bool.false_eq_true, if_false]
        cases splitNl rest <;> simp

/-- Pushing a character onto the first line commutes with joining. -/
theorem joinNl_cons_cons (c : Char) (l : List Char) (ls : List (List Char)) :
    joinNl ((c :: l) :: ls) = c :: joinNl (l :: ls) := by
  cases ls <;> rfl

/-- Joining the newline-split of a text restores the text. -/
theorem joinNl_splitNl (l : List Char) : joinNl (splitNl l) = l := by
  induction l with
  | nil => rfl
  | cons c rest ih =>
      by_cases hc : (c == '\n') = true
      · have hc' : c = '\n' := by simpa using hc
        subst hc'
        rcases hsr : splitNl rest with _ | ⟨l0, ls0⟩
        · exact absurd hsr (splitNl_ne_nil rest)
        · simp only [splitNl, beq_self_eq_true, if_true, hsr]
          show '\n' :: joinNl (l0 :: ls0) = '\n' :: rest
          rw [← hsr, ih]
      · rcases hsr : splitNl rest with _ | ⟨l0, ls0⟩
        · exact absurd hsr (splitNl_ne_nil rest)
        · simp only [splitNl, hc, Bool.false_eq_true, if_false, hsr]
          rw [joinNl_cons_cons, ← hsr, ih]

/-- When no line of the text matches the line-comment regex, the first
preprocessing pass is the identity. -/
theorem pass1_id (l : List Char)
    (h : ∀ line ∈ splitNl l, hasLC none line = false) : pass1 l = l := by
  unfold pass1
  rw [(List.map_congr_left
      (fun line hline => lineComment_id none line (h line hline))).trans
    (List.map_id _)]
  exact joinNl_splitNl l

/-- blockAux outside a comment passes through a character that does not
open a block comment. -/
theorem blockAux_cons_false (c : Char) (rest : List Char)
    (h : ¬(c = '/' ∧ rest.head? = some '*')) :
    blockAux false (c :: rest) = c :: blockAux false rest := by
  conv_lhs => rw [blockAux.eq_def]
  split <;> simp_all

/-- When the block-comment regex finds no match, the second
preprocessing pass is the identity. -/
theorem blockAux_id : ∀ l : List Char, hasBC l = false → blockAux false l = l
  | [] => fun _ => rfl
  | c :: rest => fun h => by
      simp only [hasBC, Bool.or_eq_false_iff] at h
      by_cases hcr : c = '/' ∧ rest.head? = some '*'
      · obtain ⟨hc, hh⟩ := hcr
        subst hc
        rcases rest with _ | ⟨c2, r2⟩
        · simp at hh
        · have hc2 : c2 = '*' := by simpa using hh
          subst hc2
          have hcl : hasClose r2 = false := by simpa using h.1
          simp [blockAux, hcl]
      · rw [blockAux_cons_false c rest hcr, blockAux_id rest h.2]

/-- dropWhile skips a leading segment that satisfies the predicate. -/
theorem dropWhile_append_all (p : Char → Bool) (ws l : List Char)
    (h : ∀ x ∈ ws, p x = true) : (ws ++ l).dropWhile p = l.dropWhile p := by
  induction ws with
  | nil => rfl
  | cons w ws ih =>
      simp only [List.cons_append, List.dropWhile_cons, h w (by simp), if_true]
      exact ih (fun x hx => h x (by simp [hx]))

/-- A trailing-comma match is preserved by dropping a prefix. -/
theorem hasTC_append_right (l1 l2 : List Char)
    (h : hasTC (l1 ++ l2) = false) : hasTC l2 = false := by
  induction l1 with
  | nil => exact h
  | cons c r ih =>
      simp only [List.cons_append, hasTC, Bool.or_eq_false_iff] at h
      exact ih h.2

/-- Generalised identity for the trailing-comma pass: when the pending
buffer is a comma plus whitespace and the regex finds no match in the
buffered text, the scan reproduces its input. -/
theorem pass3Aux_id (pending l : List Char) :
    (pending = [] ∨ ∃ ws, pending = ',' :: ws ∧ ∀ x ∈ ws, isPySpace x = true) →
    hasTC (pending ++ l) = false →
    pass3Aux pending l = pending ++ l := by
  induction pending, l using pass3Aux.induct with
  | case1 pending =>
      intro _ _
      simp [pass3Aux]
  | case2 pending c rest hemp hc ih =>
      intro _ htc
      have hp : pending = [] := List.isEmpty_iff.mp hemp
      subst hp
      have hc' : c = ',' := by simpa using hc
      subst hc'
      have hih := ih (Or.inr ⟨[], rfl, by simp⟩) (by simpa using htc)
      simp [pass3Aux, hih]
  | case3 pending c rest hemp hnc ih =>
      intro _ htc
      have hp : pending = [] := List.isEmpty_iff.mp hemp
      subst hp
      simp only [List.nil_append, hasTC, Bool.or_eq_false_iff] at htc
      have hih := ih (Or.inl rfl) (by simpa using htc.2)
      simp [pass3Aux, hnc, hih]
  | case4 pending c rest hne hsp ih =>
      intro hpok htc
      rcases hpok with hp | ⟨ws, hpw, hws⟩
      · exact absurd (by simp [hp]) hne
      · have hpok2 : pending ++ [c] = ',' :: (ws ++ [c]) ∧
            ∀ x ∈ ws ++ [c], isPySpace x = true := by
          constructor
          · rw [hpw, List.cons_append]
          · intro x hx
            rcases List.mem_append.mp hx with hx | hx
            · exact hws x hx
            · simp at hx
              subst hx
              exact hsp
        have htc2 : hasTC ((pending ++ [c]) ++ rest) = false := by
          rw [List.append_assoc]
          simpa using htc
        have hih := ih (Or.inr ⟨ws ++ [c], hpok2.1, hpok2.2⟩) htc2
        have hne' : pending.isEmpty = false := by
          simpa using hne
        simp [pass3Aux, hne', hsp, hih, List.append_assoc]
  | case5 pending c rest hne hnsp hbr =>
      intro hpok htc
      exfalso
      rcases hpok with hp | ⟨ws, hpw, hws⟩
      · exact absurd (by simp [hp]) hne
      · subst hpw
        simp only [List.cons_append, hasTC, Bool.or_eq_false_iff] at htc
        have hb : bracketAfterWs (ws ++ c :: rest) = true := by
          unfold bracketAfterWs
          rw [dropWhile_append_all isPySpace ws _ hws, List.dropWhile_cons,
            if_neg (by simpa using hnsp)]
          rcases (by simpa using hbr : c = ']' ∨ c = '\x7d') with hb | hb <;>
            subst hb <;> rfl
        have := htc.1
        simp only [List.append_eq] at this
        rw [hb] at this
        simp at this
  | case6 pending c rest hne hnsp hnbr hc ih =>
      intro hpok htc
      have hc' : c = ',' := by simpa using hc
      subst hc'
      have htcr : hasTC (',' :: rest) = false := hasTC_append_right pending _ htc
      have hih := ih (Or.inr ⟨[], rfl, by simp⟩) (by simpa using htcr)
      have hne' : pending.isEmpty = false := by simpa using hne
      simp [pass3Aux, hne', hnsp, hnbr, hih]
  | case7 pending c rest hne hnsp hnbr hnc ih =>
      intro hpok htc
      have htcr : hasTC (c :: rest) = false := hasTC_append_right pending _ htc
      simp only [hasTC, Bool.or_eq_false_iff] at htcr
      have hih := ih (Or.inl rfl) (by simpa using htcr.2)
      have hne' : pending.isEmpty = false := by simpa using hne
      simp [pass3Aux, hne', hnsp, hnbr, hnc, hih]

/-- When the trailing-comma regex finds no match, the third
preprocessing pass is the identity. -/
theorem pass3_id (l : List Char) (h : hasTC l = false) : pass3 l = l := by
  have := pass3Aux_id [] l (Or.inl rfl) (by simpa using h)
  simpa [pass3] using this

/-- C4 (corrected): the loose reader's preprocessing agrees with a
strict parse whenever none of its three regexes finds a match in the
raw text: no BOM, no "//" at a line start or after whitespace /
"[" / "\x7b" / "," (a "//" after any other character, as in
"http://x", is safe), no "/*" with a later "*/", and no comma whose
next non-whitespace character is a closing bracket.  Under these
conditions preprocessing is the identity, so the loose reader parses
the text to exactly the strict json.loads value.  (Without them it can
rewrite quoted string content; see the counterexample.) -/
theorem c4_loose_reader_amended (t : String)
    (hb : t.data.head? ≠ some bomChar)
    (h1 : ∀ line ∈ splitNl t.data, hasLC none line = false)
    (h2 : hasBC t.data = false)
    (h3 : hasTC t.data = false) :
    preprocessStr t = t ∧ read_json_loose t = jsonLoads t := by
  have hsb : stripBOM t.data = t.data := by
    cases hd : t.data with
    | nil => rfl
    | cons c rest =>
        have hcb : (c == bomChar) = false := by
          rw [hd] at hb
          simpa using hb
        simp [stripBOM, hcb]
  have hpre : preprocessL t.data = t.data := by
    unfold preprocessL
    have hp2 : pass2 t.data = t.data := blockAux_id t.data h2
    rw [hsb, pass1_id t.data h1, hp2]
    exact pass3_id t.data h3
  have hstr : preprocessStr t = t := by
    unfold preprocessStr
    rw [hpre]
  exact ⟨hstr, by unfold read_json_loose; rw [hstr]⟩

/-- Witness for C4: a JSON text whose string value contains "//"
preceded by a non-delimiter character is preprocessed to itself and
parses identically under the loose and strict readers. -/
theorem c4_loose_reader_amended_witness :
    preprocessStr "\x7b\"a\": \"http://x\"\x7d" = "\x7b\"a\": \"http://x\"\x7d" ∧
    read_json_loose "\x7b\"a\": \"http://x\"\x7d" = jsonLoads "\x7b\"a\": \"http://x\"\x7d" :=
  c4_loose_reader_amended "\x7b\"a\": \"http://x\"\x7d"
    (by decide) (by decide) (by decide) (by decide)

/-- C4 counterexample: on the valid JSON text \x7b"a": "b /* c */"\x7d
the block-comment removal strikes inside the quoted string value, so
the loose reader returns "b " where a strict parse returns
"b /* c */": preprocessing altered string content and the parses
disagree. -/
theorem c4_string_content_counterexample :
    jsonLoads "\x7b\"a\": \"b /* c */\"\x7d" = some (.obj [("a", .str "b /* c */")]) ∧
    read_json_loose "\x7b\"a\": \"b /* c */\"\x7d" = some (.obj [("a", .str "b ")]) ∧
    read_json_loose "\x7b\"a\": \"b /* c */\"\x7d" ≠ jsonLoads "\x7b\"a\": \"b /* c */\"\x7d" := by
  refine ⟨rfl, rfl, ?_⟩
  intro h
  rw [show read_json_loose "\x7b\"a\": \"b /* c */\"\x7d" = some (.obj [("a", .str "b ")]) from rfl,
    show jsonLoads "\x7b\"a\": \"b /* c */\"\x7d" = some (.obj [("a", .str "b /* c */")]) from rfl] at h
  simp at h
